import Mathlib

/-!
# Verification of the paps intercepting proxy against its specification

Shallow embedding of the core of the `paps` repository (an intercepting
proxy for HTTP/FTP/DNS/Telnet) and proofs of the frozen claims about it.

Conventions of the embedding:
* Python `bytes` are `List Nat` (each element a byte value `< 256`; the
  source never depends on the bound, so it is not enforced by the type).
* Python `str` is `String` or `List Char`; `bytes.decode('utf-8',
  errors='ignore')` is modelled as keeping bytes `< 128` as ASCII
  characters and dropping the rest (every input appearing in the claims
  is pure ASCII, where this model is exact).
* Python dictionaries are association lists with insertion-order
  semantics: assignment to a fresh key appends, assignment to an
  existing key replaces in place, lookup returns the first match.  All
  dictionaries built by the embedded code have pairwise-distinct keys,
  so replace-first equals Python's replace.
* Exceptions are modelled with `Option`/`Except` or with an explicit
  `(partial result, optional error)` pair where the source catches them.
* `uuid.uuid4()` and `time.time()` are environment effects; the packet
  `id` and `timestamp` are therefore ordinary fields of the model, and
  the float timestamp is modelled as an `Int` (JSON round-trips Python
  floats exactly via `repr`, so the numeric carrier does not matter for
  the persistence claims).
-/

set_option maxHeartbeats 1000000
set_option maxRecDepth 8192

namespace Paps

/-! ## Protocol-metadata values

`parse_packet` in the handlers stores strings, numbers, booleans, lists
of strings and string-to-string maps into the metadata dictionary. -/

inductive MVal where
  | s (v : String)
  | n (v : Int)
  | b (v : Bool)
  | strs (v : List String)
  | dict (v : List (String × String))
  deriving Repr, DecidableEq

/-- A metadata dictionary: insertion-ordered association list. -/
abbrev Metadata := List (String × MVal)

/-- Python `d[k] = v`: replace the (unique) existing binding in place,
else append at the end. -/
def mput : Metadata → String → MVal → Metadata
  | [], k, v => [(k, v)]
  | kv :: rest, k, v => if kv.1 = k then (k, v) :: rest else kv :: mput rest k v

/-- Python `d.get(k)` / `d[k]` lookup: first matching key. -/
def mget : Metadata → String → Option MVal
  | [], _ => none
  | kv :: rest, k => if kv.1 = k then some kv.2 else mget rest k

/-- Python `k in d`. -/
def mhas (m : Metadata) (k : String) : Bool :=
  (mget m k).isSome

theorem mget_mput_self (m : Metadata) (k : String) (v : MVal) :
    mget (mput m k v) k = some v := by
  induction m with
  | nil => simp [mput, mget]
  | cons kv rest ih =>
    by_cases h : kv.1 = k
    · simp [mput, mget, h]
    · simp [mput, mget, h, ih]

theorem mget_mput_ne (m : Metadata) (k k' : String) (v : MVal) (h : k' ≠ k) :
    mget (mput m k v) k' = mget m k' := by
  have h' : ¬(k = k') := fun hh => h hh.symm
  induction m with
  | nil => simp [mput, mget, h', h]
  | cons kv rest ih =>
    by_cases hk : kv.1 = k
    · simp [mput, mget, hk, h', h]
    · by_cases hk' : kv.1 = k'
      · simp [mput, mget, hk, hk', h', h]
      · simp [mput, mget, hk, hk', ih]

/-- Looking a key up in an append finds the left binding first. -/
theorem mget_append_left (m m' : Metadata) (k : String) (v : MVal)
    (h : mget m k = some v) : mget (m ++ m') k = some v := by
  induction m with
  | nil => simp [mget] at h
  | cons kv rest ih =>
    by_cases hk : kv.1 = k
    · simp_all [mget]
    · simp only [mget, hk, if_false, List.cons_append] at h ⊢
      exact ih h

/-! ## `src/proxy/packet.py` — the `Packet` class and its persistence

`save` writes `to_dict()` as a JSON file plus the raw payload as a
binary file; `load` is the inverse.  JSON values are modelled by `JVal`;
`json.dump`/`json.load` on such values is the identity (the
JSON-representability hypothesis of claim C1 is expressed by the type),
except that Python tuples are serialized as JSON arrays, which is why
the address fields appear as `jarr` in `to_dict` and are rebuilt with
`tuple(...)` in `load`. -/

inductive JVal where
  | jstr (v : String)
  | jnum (v : Int)
  | jbool (v : Bool)
  | jnull
  | jarr (v : List JVal)
  | jobj (v : List (String × JVal))
  deriving Repr

abbrev JObj := List (String × JVal)

def jget : JObj → String → Option JVal
  | [], _ => none
  | kv :: rest, k => if kv.1 = k then some kv.2 else jget rest k

def hexDigit (n : Nat) : Char :=
  if n < 10 then Char.ofNat (48 + n) else Char.ofNat (87 + n)

/-- Python `bytes.hex()`: two lowercase hex digits per byte. -/
def bytesHex (bs : List Nat) : String :=
  String.mk (bs.flatMap (fun b => [hexDigit (b / 16), hexDigit (b % 16)]))

/-- The `Packet` class of `src/proxy/packet.py`. -/
structure PPacket where
  id : String
  timestamp : Int
  data : List Nat
  source : String × Int
  destination : String × Int
  protocol : String
  direction : String
  paused : Bool
  modified : Bool
  metadata : JObj
  deriving Repr

/-- `Packet.to_dict` (packet.py lines 41-60), fields in source order. -/
def PPacket.to_dict (p : PPacket) : JObj :=
  [("id", .jstr p.id),
   ("timestamp", .jnum p.timestamp),
   ("source", .jarr [.jstr p.source.1, .jnum p.source.2]),
   ("destination", .jarr [.jstr p.destination.1, .jnum p.destination.2]),
   ("protocol", .jstr p.protocol),
   ("direction", .jstr p.direction),
   ("data_hex", .jstr (bytesHex p.data)),
   ("data_length", .jnum p.data.length),
   ("paused", .jbool p.paused),
   ("modified", .jbool p.modified),
   ("metadata", .jobj p.metadata)]

/-- Result of `Packet.save`: the returned path and the contents of the
`.json` and `.bin` files it wrote. -/
structure SavedPacket where
  path : String
  jsonFile : JObj
  binFile : List Nat
  deriving Repr

/-- `Packet.save` (packet.py lines 62-95): filename from timestamp,
protocol and id; the JSON file holds `to_dict()`, the binary file the
raw data. -/
def PPacket.save (p : PPacket) (storagePath : String) : SavedPacket :=
  { path := storagePath ++ "/" ++ toString p.timestamp ++ "_" ++ p.protocol
      ++ "_" ++ p.id ++ ".packet"
    jsonFile := p.to_dict
    binFile := p.data }

def jvalAsStr : JVal → Option String
  | .jstr s => some s
  | _ => none

def jvalAsNum : JVal → Option Int
  | .jnum n => some n
  | _ => none

def jvalAsBool : JVal → Option Bool
  | .jbool b => some b
  | _ => none

def jvalAsObj : JVal → Option JObj
  | .jobj o => some o
  | _ => none

/-- Python `tuple(metadata['source'])` followed by the use of the value
as a `(host, port)` address: a two-element JSON array. -/
def jvalAsAddr : JVal → Option (String × Int)
  | .jarr [.jstr h, .jnum p] => some (h, p)
  | _ => none

/-- `Packet.load` (packet.py lines 97-137): reads the JSON and binary
files back; any failure (missing key, malformed value) is caught by the
`except` clause and yields `None`.  `modified` uses
`metadata.get('modified', False)`. -/
def PPacket.load (jsonFile : JObj) (binFile : List Nat) : Option PPacket := do
  let src ← (jget jsonFile "source").bind jvalAsAddr
  let dst ← (jget jsonFile "destination").bind jvalAsAddr
  let proto ← (jget jsonFile "protocol").bind jvalAsStr
  let dir ← (jget jsonFile "direction").bind jvalAsStr
  let pid ← (jget jsonFile "id").bind jvalAsStr
  let ts ← (jget jsonFile "timestamp").bind jvalAsNum
  let pau ← (jget jsonFile "paused").bind jvalAsBool
  let md := (((jget jsonFile "modified").bind jvalAsBool).getD false)
  let meta ← (jget jsonFile "metadata").bind jvalAsObj
  some { id := pid, timestamp := ts, data := binFile, source := src,
         destination := dst, protocol := proto, direction := dir,
         paused := pau, modified := md, metadata := meta }

/-- `Packet.set_pause` (packet.py lines 139-150). -/
def PPacket.set_pause (p : PPacket) (paused : Bool) : PPacket × Bool :=
  ({ p with paused := paused }, paused)

/-- Python runtime values that can be passed to `modify_data`; the
`isinstance(new_data, bytes)` check distinguishes the first constructor
from everything else. -/
inductive PyVal where
  | pybytes (b : List Nat)
  | pystr (s : String)
  | pyint (n : Int)
  | pynone
  deriving Repr, DecidableEq

def PyVal.isBytes : PyVal → Bool
  | .pybytes _ => true
  | _ => false

/-- `Packet.modify_data` (packet.py lines 152-167): rejects non-bytes
input, otherwise replaces `data` and sets `modified`. -/
def PPacket.modify_data (p : PPacket) (newData : PyVal) : PPacket × Bool :=
  match newData with
  | .pybytes b => ({ p with data := b, modified := true }, true)
  | _ => (p, false)

/-- C1: For every Packet p whose metadata values are JSON-representable
(expressed by `metadata : JObj`), saving p and then loading from the
files written at the returned path yields a Packet equal to p
field-for-field: same id, timestamp, data bytes, source, destination,
protocol, direction, paused, modified, and metadata. -/
theorem save_load_roundtrip (p : PPacket) (storagePath : String) :
    PPacket.load (p.save storagePath).jsonFile (p.save storagePath).binFile
      = some p := by
  cases p
  rfl

/-- C10: `modify_data` returns False and changes nothing on a non-bytes
argument; on a bytes argument it returns True, replaces `data`, sets
`modified`, and changes no other field. -/
theorem modify_data_spec (p : PPacket) (x : PyVal) :
    (p.modify_data x).2 = x.isBytes
    ∧ (match x with
       | .pybytes b =>
           (p.modify_data x).1 = { p with data := b, modified := true }
       | _ => (p.modify_data x).1 = p)
    ∧ (p.modify_data x).1.id = p.id
    ∧ (p.modify_data x).1.timestamp = p.timestamp
    ∧ (p.modify_data x).1.source = p.source
    ∧ (p.modify_data x).1.destination = p.destination
    ∧ (p.modify_data x).1.protocol = p.protocol
    ∧ (p.modify_data x).1.direction = p.direction
    ∧ (p.modify_data x).1.paused = p.paused
    ∧ (p.modify_data x).1.metadata = p.metadata := by
  cases x <;> simp [PPacket.modify_data, PyVal.isBytes]

/-! ## `src/protocols/base.py` — `BaseProtocolHandler.create_packet`

`base.py` defines its own lighter `Packet` class (no `direction` and no
`modified` field); `create_packet` builds one of those.  Directions are
the Python strings `'client_to_server'` / `'server_to_client'`.  The
handler state needed by `create_packet` is the client address, the
upstream peer address (`server_socket.getpeername()`), the inspection
mode, the pause-by-default flag and the protocol name; the
protocol-specific `parse_packet` is passed as a function. -/

abbrev Addr := String × Int

/-- The `Packet` class of `src/protocols/base.py` (lines 45-79). -/
structure BasePacket where
  id : String
  timestamp : Int
  data : List Nat
  source : Addr
  destination : Addr
  protocol : String
  paused : Bool
  metadata : Metadata
  deriving Repr

/-- The fields of `BaseProtocolHandler` that `create_packet` reads. -/
structure HandlerCtx where
  clientAddress : Addr
  serverPeer : Addr
  inspectionMode : String
  pauseByDefault : Bool
  protocolName : String
  deriving Repr

/-- `BaseProtocolHandler.create_packet` (base.py lines 175-202).  The
fresh uuid and timestamp of the constructed packet are taken as
parameters (they are environment effects). -/
def createPacket (ctx : HandlerCtx) (parse : List Nat → String → Metadata)
    (freshId : String) (now : Int) (data : List Nat) (direction : String) :
    BasePacket :=
  let source := if direction = "client_to_server" then ctx.clientAddress
                else ctx.serverPeer
  let destination := if direction = "client_to_server" then ctx.serverPeer
                     else ctx.clientAddress
  let packet : BasePacket :=
    { id := freshId, timestamp := now, data := data, source := source,
      destination := destination, protocol := ctx.protocolName,
      paused := false, metadata := [] }
  let packet :=
    if ctx.inspectionMode = "parsed" ∨ ctx.inspectionMode = "both" then
      { packet with metadata := parse data direction }
    else packet
  { packet with paused := ctx.pauseByDefault }

/-- C8: the packet returned by `create_packet` has source = client
address and destination = upstream peer in the client_to_server
direction and the reverse otherwise; its metadata is the `parse_packet`
result exactly when the inspection mode is 'parsed' or 'both' and empty
otherwise; and its paused flag equals the pause_by_default setting. -/
theorem create_packet_spec (ctx : HandlerCtx)
    (parse : List Nat → String → Metadata) (freshId : String) (now : Int)
    (data : List Nat) (direction : String) :
    (createPacket ctx parse freshId now data direction).source
        = (if direction = "client_to_server" then ctx.clientAddress
           else ctx.serverPeer)
    ∧ (createPacket ctx parse freshId now data direction).destination
        = (if direction = "client_to_server" then ctx.serverPeer
           else ctx.clientAddress)
    ∧ (createPacket ctx parse freshId now data direction).metadata
        = (if ctx.inspectionMode = "parsed" ∨ ctx.inspectionMode = "both"
           then parse data direction else [])
    ∧ (createPacket ctx parse freshId now data direction).paused
        = ctx.pauseByDefault := by
  unfold createPacket
  by_cases hm : ctx.inspectionMode = "parsed" ∨ ctx.inspectionMode = "both" <;>
    simp [hm]

/-! ## `src/protocols/telnet.py` — `_process_telnet_commands`

Telnet command codes: IAC=255, DONT=254, DO=253, WONT=252, WILL=251,
SB=250, SE=240.  The index-based scanning loop of
`_process_telnet_commands` (telnet.py lines 138-204) is transcribed into
structural recursion; every guard of the Python loop (`i < len-1`,
`i < len-2`, `j < len-1`) corresponds to a pattern below. -/

/-- The `j`-search of the subnegotiation branch (telnet.py lines
181-185): index of the first adjacent pair `IAC SE` (255, 240), scanning
pairs `(buffer[j], buffer[j+1])` left to right. -/
def findIacSe : List Nat → Option Nat
  | a :: b :: rest =>
      if a = 255 ∧ b = 240 then some 0
      else (findIacSe (b :: rest)).map (· + 1)
  | _ => none

/-- The scanning loop of `_process_telnet_commands`, returning
`(processed_data, remaining_buffer)`.

* a non-IAC byte, or an IAC that is the last byte of the buffer, is
  emitted and scanning continues (`buffer[i] != IAC or i >= len-1`);
* `IAC DO|DONT|WILL|WONT opt` is emitted as three bytes when the option
  byte is present, else the two bytes fall to the generic command case;
* `IAC SB`: if a terminating `IAC SE` pair exists in the rest of the
  buffer the whole subnegotiation is emitted as one unit, otherwise the
  loop returns early keeping everything from the `IAC` as remainder;
* any other `IAC cmd` is emitted as two bytes. -/
def telnetProcess : List Nat → List Nat × List Nat
  | [] => ([], [])
  | [x] => ([x], [])
  | x :: y :: rest =>
    if x ≠ 255 then
      ((x :: (telnetProcess (y :: rest)).1), (telnetProcess (y :: rest)).2)
    else if y = 253 ∨ y = 254 ∨ y = 251 ∨ y = 252 then
      match rest with
      | [] => ([255, y], [])
      | o :: rest' =>
          ((255 :: y :: o :: (telnetProcess rest').1), (telnetProcess rest').2)
    else if y = 250 then
      match findIacSe rest with
      | some k =>
          ((255 :: 250 :: rest.take (k + 2) ++ (telnetProcess (rest.drop (k + 2))).1),
           (telnetProcess (rest.drop (k + 2))).2)
      | none => ([], 255 :: 250 :: rest)
    else
      ((255 :: y :: (telnetProcess rest).1), (telnetProcess rest).2)
termination_by l => l.length
decreasing_by
  all_goals simp_arith [List.length_drop]

/-- `TelnetProtocolHandler._process_telnet_commands` (telnet.py lines
138-204): if the buffer holds no IAC byte it is returned whole, else the
scanning loop runs.  `direction` is only used for logging. -/
def processTelnetCommands (buffer : List Nat) (direction : String) :
    List Nat × List Nat :=
  if 255 ∈ buffer then telnetProcess buffer else (buffer, [])

theorem telnetProcess_append_eq (l : List Nat) :
    (telnetProcess l).1 ++ (telnetProcess l).2 = l := by
  induction l using telnetProcess.induct with
  | case1 => simp [telnetProcess]
  | case2 x => simp [telnetProcess]
  | case3 x y rest hx ih =>
      rw [telnetProcess.eq_def]
      simp [hx, ih]
  | case4 x y hx hy =>
      obtain rfl : x = 255 := not_not.mp hx
      simp [telnetProcess, hy]
  | case5 x y hx hy o rest' ih =>
      obtain rfl : x = 255 := not_not.mp hx
      simp [telnetProcess, hy, ih]
  | case6 x rest hx k hfind hne ih =>
      obtain rfl : x = 255 := not_not.mp hx
      rw [telnetProcess.eq_def]
      simp [hfind, List.append_assoc, ih, List.take_append_drop]
  | case7 x rest hx hfind hne =>
      obtain rfl : x = 255 := not_not.mp hx
      rw [telnetProcess.eq_def]
      simp [hfind]
  | case8 x y rest hx hy hy250 ih =>
      obtain rfl : x = 255 := not_not.mp hx
      rw [telnetProcess.eq_def]
      simp [hy, hy250, ih]

/-- C9: one processing round neither drops, duplicates nor reorders a
byte: processed data followed by the remaining buffer is exactly the
input buffer. -/
theorem process_telnet_commands_preserves_bytes (buffer : List Nat)
    (direction : String) :
    (processTelnetCommands buffer direction).1
      ++ (processTelnetCommands buffer direction).2 = buffer := by
  unfold processTelnetCommands
  by_cases h : (255 : Nat) ∈ buffer
  · simpa [h] using telnetProcess_append_eq buffer
  · simp [h]

theorem findIacSe_take_none (l : List Nat) (h : findIacSe l = none) (m : Nat) :
    findIacSe (l.take m) = none := by
  induction l using findIacSe.induct generalizing m with
  | case1 a b rest hc =>
      simp [findIacSe, hc] at h
  | case2 a b rest hc ih =>
      simp only [findIacSe, if_neg hc, Option.map_eq_none'] at h
      match m with
      | 0 => simp [findIacSe]
      | 1 => simp [findIacSe]
      | Nat.succ (Nat.succ m') =>
          have hih := ih h (m' + 1)
          simp only [List.take_succ_cons] at hih ⊢
          simp [findIacSe, hc, hih]
  | case3 t hne =>
      match t with
      | [] => simp [findIacSe]
      | [x] => cases m <;> simp [findIacSe]
      | a :: b :: rest => exact (hne a b rest rfl).elim

/-- If the payload of a subnegotiation (even extended by a final IAC)
holds no adjacent `IAC SE` pair, the terminator search finds exactly the
closing pair appended after it. -/
theorem findIacSe_append (payload suffix : List Nat)
    (h : findIacSe (payload ++ [255]) = none) :
    findIacSe (payload ++ 255 :: 240 :: suffix) = some payload.length := by
  induction payload with
  | nil => simp [findIacSe]
  | cons a p ih =>
      cases p with
      | nil => simp [findIacSe]
      | cons b p' =>
          simp only [List.cons_append, List.append_eq, findIacSe] at h ⊢
          by_cases hc : a = 255 ∧ b = 240
          · simp [hc] at h
          · rw [if_neg hc] at h ⊢
            rw [Option.map_eq_none'] at h
            have hh := ih (by simpa using h)
            simp only [List.cons_append, List.append_eq] at hh
            rw [hh]
            simp

/-- Scanning a buffer that starts with IAC-free bytes emits those bytes
unchanged and continues on the rest. -/
theorem telnetProcess_noiac_prefix (pre tail : List Nat)
    (hpre : ∀ b ∈ pre, b ≠ 255) (htail : tail ≠ []) :
    telnetProcess (pre ++ tail)
      = (pre ++ (telnetProcess tail).1, (telnetProcess tail).2) := by
  induction pre with
  | nil => simp
  | cons a pre' ih =>
      have ha : a ≠ 255 := hpre a (by simp)
      have hpre' : ∀ b ∈ pre', b ≠ 255 := fun b hb => hpre b (by simp [hb])
      cases hpt : pre' ++ tail with
      | nil => exact absurd (List.append_eq_nil.mp hpt).2 htail
      | cons y rest =>
          rw [List.cons_append, hpt, telnetProcess.eq_def]
          simp only [ha, ne_eq, not_false_iff, if_true, if_pos]
          rw [← hpt, ih hpre']
          simp

/-- An `IAC SB` whose terminator has not arrived emits nothing and keeps
the whole tail as remainder. -/
theorem telnetProcess_sb_incomplete (r : List Nat)
    (h : findIacSe r = none) :
    telnetProcess (255 :: 250 :: r) = ([], 255 :: 250 :: r) := by
  rw [telnetProcess.eq_def]
  simp [h]

/-- A complete subnegotiation at the head of the buffer is emitted as
one unit, and scanning continues after it. -/
theorem telnetProcess_sb_complete (payload suffix : List Nat)
    (h : findIacSe (payload ++ [255]) = none) :
    telnetProcess (255 :: 250 :: (payload ++ 255 :: 240 :: suffix))
      = (255 :: 250 :: (payload ++ 255 :: 240 :: (telnetProcess suffix).1),
         (telnetProcess suffix).2) := by
  rw [telnetProcess.eq_def]
  have hf := findIacSe_append payload suffix h
  simp only [hf]
  norm_num [List.take_append, List.drop_append]

/-- C3, counterexample: take the stream `IAC SB ECHO IAC SE`
(`[255, 250, 1, 255, 240]`) split after its first byte, so that the
subnegotiation straddles the split.  The claim requires that processing
the first read `[255]` emits nothing of the incomplete subnegotiation
and retains it in the remainder buffer; in fact `_process_telnet_commands`
emits the lone trailing IAC (`buffer[i] != IAC or i >= len(buffer)-1`
passes the byte through) and retains nothing. -/
theorem telnet_straddling_subneg_counterexample :
    ¬ ((processTelnetCommands [255] "client_to_server").1 = []
       ∧ (processTelnetCommands [255] "client_to_server").2 = [255]) := by
  simp [processTelnetCommands, telnetProcess]

/-- C3, amended: for a Telnet stream `pre ++ (IAC SB payload IAC SE) ++
suffix` whose bytes before the subnegotiation contain no IAC and whose
payload contains no adjacent `IAC SE` pair, and for every split of the
stream into two reads such that the subnegotiation straddles the split
*with at least two of its bytes in the first read* (i.e. the split is
not immediately after the opening IAC), processing the first read emits
exactly the preceding bytes and retains the partial subnegotiation in
the remainder buffer, and processing the remainder concatenated with the
second read emits the subnegotiation as one intact unit at the front of
its output, with no duplicated and no dropped bytes overall.  (When the
split falls immediately after the opening IAC the lone IAC is emitted
early, as the counterexample shows.) -/
theorem telnet_straddling_subneg_reassembled
    (pre payload suffix : List Nat) (s : Nat)
    (hpre : ∀ b ∈ pre, b ≠ 255)
    (hpay : findIacSe (payload ++ [255]) = none)
    (hs2 : 2 ≤ s) (hslt : s < payload.length + 4) :
    (processTelnetCommands
        (pre ++ (255 :: 250 :: (payload ++ [255, 240])).take s)
        "client_to_server").1 = pre
    ∧ (processTelnetCommands
        (pre ++ (255 :: 250 :: (payload ++ [255, 240])).take s)
        "client_to_server").2
      = (255 :: 250 :: (payload ++ [255, 240])).take s
    ∧ (processTelnetCommands
        ((processTelnetCommands
            (pre ++ (255 :: 250 :: (payload ++ [255, 240])).take s)
            "client_to_server").2
          ++ ((255 :: 250 :: (payload ++ [255, 240])).drop s ++ suffix))
        "client_to_server").1
      = (255 :: 250 :: (payload ++ [255, 240]))
          ++ (telnetProcess suffix).1
    ∧ (processTelnetCommands
        (pre ++ (255 :: 250 :: (payload ++ [255, 240])).take s)
        "client_to_server").1
      ++ (processTelnetCommands
          ((processTelnetCommands
              (pre ++ (255 :: 250 :: (payload ++ [255, 240])).take s)
              "client_to_server").2
            ++ ((255 :: 250 :: (payload ++ [255, 240])).drop s ++ suffix))
          "client_to_server").1
      ++ (processTelnetCommands
          ((processTelnetCommands
              (pre ++ (255 :: 250 :: (payload ++ [255, 240])).take s)
              "client_to_server").2
            ++ ((255 :: 250 :: (payload ++ [255, 240])).drop s ++ suffix))
          "client_to_server").2
      = pre ++ (255 :: 250 :: (payload ++ [255, 240])) ++ suffix := by
  obtain ⟨t, rfl⟩ : ∃ t, s = t + 2 := ⟨s - 2, by omega⟩
  have htle : t ≤ payload.length + 1 := by
    simpa using Nat.lt_succ_iff.mp (by omega : t + 2 < payload.length + 4)
  -- the part of the subnegotiation in the first read
  have htake : (255 :: 250 :: (payload ++ [255, 240])).take (t + 2)
      = 255 :: 250 :: (payload ++ [255, 240]).take t := by
    simp [List.take_succ_cons]
  have hdrop : (255 :: 250 :: (payload ++ [255, 240])).drop (t + 2)
      = (payload ++ [255, 240]).drop t := by
    simp [List.drop_succ_cons]
  -- the retained part has no IAC SE terminator
  have hnot : findIacSe ((payload ++ [255, 240]).take t) = none := by
    have h240 : (payload ++ [255, 240]).take t = (payload ++ [255]).take t := by
      rw [show ([255, 240] : List Nat) = [255] ++ [240] from rfl,
          ← List.append_assoc]
      rw [List.take_append_of_le_length (by simpa using htle)]
    rw [h240]
    exact findIacSe_take_none _ hpay t
  -- round 1
  have hr1 : telnetProcess (pre ++ (255 :: 250 :: (payload ++ [255, 240])).take (t + 2))
      = (pre, 255 :: 250 :: (payload ++ [255, 240]).take t) := by
    rw [htake, telnetProcess_noiac_prefix pre _ hpre (by simp),
        telnetProcess_sb_incomplete _ hnot]
    simp
  have hmem1 : (255 : Nat) ∈ pre ++ (255 :: 250 :: (payload ++ [255, 240])).take (t + 2) := by
    rw [htake]; simp
  have hround1 : processTelnetCommands
      (pre ++ (255 :: 250 :: (payload ++ [255, 240])).take (t + 2))
      "client_to_server"
      = (pre, 255 :: 250 :: (payload ++ [255, 240]).take t) := by
    rw [processTelnetCommands, if_pos hmem1, hr1]
  -- round 2 buffer
  have hbuf2 : (255 :: 250 :: (payload ++ [255, 240]).take t)
      ++ ((255 :: 250 :: (payload ++ [255, 240])).drop (t + 2) ++ suffix)
      = 255 :: 250 :: (payload ++ 255 :: 240 :: suffix) := by
    rw [hdrop]
    simp only [List.cons_append]
    rw [← List.append_assoc, List.take_append_drop]
    simp
  have hround2 : processTelnetCommands
      ((255 :: 250 :: (payload ++ [255, 240]).take t)
        ++ ((255 :: 250 :: (payload ++ [255, 240])).drop (t + 2) ++ suffix))
      "client_to_server"
      = (255 :: 250 :: (payload ++ 255 :: 240 :: (telnetProcess suffix).1),
         (telnetProcess suffix).2) := by
    rw [hbuf2, processTelnetCommands, if_pos (by simp),
        telnetProcess_sb_complete payload suffix hpay]
  refine ⟨by rw [hround1], by rw [hround1, htake], ?_, ?_⟩
  · rw [hround1]
    simp only [hround2]
    simp
  · rw [hround1]
    simp only [hround2]
    conv_rhs => rw [← telnetProcess_append_eq suffix]
    simp

/-- Witness for the amended C3 at `pre = [104]`, `payload = [1, 3]`,
`suffix = [65]`, split three bytes into the subnegotiation. -/
theorem telnet_straddling_subneg_reassembled_witness :
    (processTelnetCommands
        ([104] ++ (255 :: 250 :: ([1, 3] ++ [255, 240])).take 3)
        "client_to_server").1 = [104]
    ∧ (processTelnetCommands
        ([104] ++ (255 :: 250 :: ([1, 3] ++ [255, 240])).take 3)
        "client_to_server").2
      = (255 :: 250 :: ([1, 3] ++ [255, 240])).take 3
    ∧ (processTelnetCommands
        ((processTelnetCommands
            ([104] ++ (255 :: 250 :: ([1, 3] ++ [255, 240])).take 3)
            "client_to_server").2
          ++ ((255 :: 250 :: ([1, 3] ++ [255, 240])).drop 3 ++ [65]))
        "client_to_server").1
      = (255 :: 250 :: ([1, 3] ++ [255, 240])) ++ (telnetProcess [65]).1
    ∧ (processTelnetCommands
        ([104] ++ (255 :: 250 :: ([1, 3] ++ [255, 240])).take 3)
        "client_to_server").1
      ++ (processTelnetCommands
          ((processTelnetCommands
              ([104] ++ (255 :: 250 :: ([1, 3] ++ [255, 240])).take 3)
              "client_to_server").2
            ++ ((255 :: 250 :: ([1, 3] ++ [255, 240])).drop 3 ++ [65]))
          "client_to_server").1
      ++ (processTelnetCommands
          ((processTelnetCommands
              ([104] ++ (255 :: 250 :: ([1, 3] ++ [255, 240])).take 3)
              "client_to_server").2
            ++ ((255 :: 250 :: ([1, 3] ++ [255, 240])).drop 3 ++ [65]))
          "client_to_server").2
      = [104] ++ (255 :: 250 :: ([1, 3] ++ [255, 240])) ++ [65] :=
  telnet_straddling_subneg_reassembled [104] [1, 3] [65] 3
    (by decide) (by decide) (by decide) (by decide)

/-! ## `src/protocols/dns.py` — `DNSProtocolHandler.parse_packet`

The only operation inside the `try` block that can raise is the
unguarded `data[offset]` read of the query-name loop (lines 165-174);
it is modelled with an explicit `Except`.  Everything else (slicing,
`decode(..., errors='ignore')`, guarded reads after a length check)
cannot fail and is modelled with total functions. -/

/-- `bytes.decode('utf-8', errors='ignore')`: ASCII bytes survive,
invalid bytes are dropped. -/
def decodeAscii (bs : List Nat) : String :=
  String.mk ((bs.filter (· < 128)).map Char.ofNat)

/-- Big-endian 16-bit read at a guarded offset (`struct.unpack('!H…')`
after a length check): both bytes are in bounds at every use site. -/
def be16 (data : List Nat) (i : Nat) : Nat :=
  data.getD i 0 * 256 + data.getD (i + 1) 0

/-- The query-name loop (dns.py lines 162-176): reads a length byte,
stops on 0, else decodes that many bytes as a label and continues.  The
`data[offset]` read raises `IndexError` when offset is out of range.
The loop always terminates because the offset strictly increases; the
structural `fuel` argument (instantiated with `data.length + 1` at the
call site, strictly more than the possible number of iterations, each of
which advances the offset by at least two within the list) only makes
that termination structural and is never exhausted. -/
def readQName (data : List Nat) : Nat → Nat → Except String (List String × Nat)
  | _, 0 => .error "recursion limit"
  | offset, fuel + 1 =>
    if h : offset < data.length then
      let len := data.get ⟨offset, h⟩
      if len = 0 then .ok ([], offset + 1)
      else
        match readQName data (offset + 1 + len) fuel with
        | .ok (parts, off) =>
            .ok (decodeAscii ((data.drop (offset + 1)).take len) :: parts, off)
        | .error e => .error e
    else .error "index out of range"

/-- The question-skipping loop of the response branch (dns.py lines
219-236): domain name skip honouring compression pointers, then 4 bytes
of type and class.  Every read is guarded by `offset < len(data)`. -/
def skipName (data : List Nat) (offset : Nat) : Nat :=
  if h : offset < data.length then
    let len := data.get ⟨offset, h⟩
    if len = 0 then offset + 1
    else if len &&& 0xC0 = 0xC0 then offset + 2
    else skipName data (offset + 1 + len)
  else offset
termination_by data.length - offset
decreasing_by
  simp_wf
  omega

def skipQuestions (data : List Nat) (offset : Nat) : Nat → Nat
  | 0 => offset
  | n + 1 => skipQuestions data (skipName data offset + 4) n

def opcodeName (opcode : Nat) : String :=
  if opcode = 0 then "QUERY"
  else if opcode = 1 then "IQUERY"
  else if opcode = 2 then "STATUS"
  else if opcode = 3 then "NOTIFY"
  else if opcode = 4 then "UPDATE"
  else "UNKNOWN (" ++ toString opcode ++ ")"

def rcodeName (rcode : Nat) : String :=
  if rcode = 0 then "NOERROR"
  else if rcode = 1 then "FORMERR"
  else if rcode = 2 then "SERVFAIL"
  else if rcode = 3 then "NXDOMAIN"
  else if rcode = 4 then "NOTIMP"
  else if rcode = 5 then "REFUSED"
  else "UNKNOWN (" ++ toString rcode ++ ")"

def qtypeName (qt : Nat) : String :=
  if qt = 1 then "A" else if qt = 2 then "NS" else if qt = 5 then "CNAME"
  else if qt = 6 then "SOA" else if qt = 12 then "PTR"
  else if qt = 15 then "MX" else if qt = 16 then "TXT"
  else if qt = 28 then "AAAA" else if qt = 33 then "SRV"
  else if qt = 255 then "ANY" else "TYPE" ++ toString qt

def qclassName (qc : Nat) : String :=
  if qc = 1 then "IN" else if qc = 2 then "CS" else if qc = 3 then "CH"
  else if qc = 4 then "HS" else if qc = 255 then "ANY"
  else "CLASS" ++ toString qc

/-- The header fields and decoded flag bits written into the metadata
before any fallible operation (dns.py lines 112-157).  `z` is computed
by the source but never stored. -/
def dnsHeaderMeta (data : List Nat) : Metadata :=
  let flags := be16 data 2
  [("transaction_id", .n (be16 data 0)),
   ("query_count", .n (be16 data 4)),
   ("answer_count", .n (be16 data 6)),
   ("authority_count", .n (be16 data 8)),
   ("additional_count", .n (be16 data 10)),
   ("is_response", .b (decide ((flags >>> 15) &&& 1 ≠ 0))),
   ("opcode", .n (Int.ofNat ((flags >>> 11) &&& 0xF))),
   ("authoritative", .b (decide ((flags >>> 10) &&& 1 ≠ 0))),
   ("truncated", .b (decide ((flags >>> 9) &&& 1 ≠ 0))),
   ("recursion_desired", .b (decide ((flags >>> 8) &&& 1 ≠ 0))),
   ("recursion_available", .b (decide ((flags >>> 7) &&& 1 ≠ 0))),
   ("response_code", .n (Int.ofNat (flags &&& 0xF))),
   ("opcode_name", .s (opcodeName ((flags >>> 11) &&& 0xF))),
   ("response_code_name", .s (rcodeName (flags &&& 0xF)))]

/-- The answer-section branch (dns.py lines 209-240): for responses with
answers it records an empty `answers` list, runs the question-skipping
loop (whose resulting offset the source never uses) and records
`answers_parsed = min(ancount, 10)`. -/
def dnsAnswersPart (data : List Nat) (m : Metadata) (qr ancount qdcount : Nat) :
    Metadata × Option String :=
  if qr ≠ 0 ∧ 0 < ancount then
    let _offsetAfter := skipQuestions data 12 qdcount
    (m ++ [("answers", .strs []),
           ("answers_parsed", .n (min ancount 10))], none)
  else (m, none)

/-- The `try` block of `DNSProtocolHandler.parse_packet` (dns.py lines
105-241): the metadata accumulated so far plus the exception message if
one was raised (only the query-name loop can raise). -/
def dnsInner (data : List Nat) : Metadata × Option String :=
  if data.length < 12 then
    ([("error", .s "Packet too short for DNS header")], none)
  else
    let flags := be16 data 2
    let qdcount := be16 data 4
    let ancount := be16 data 6
    let qr := (flags >>> 15) &&& 1
    let m0 := dnsHeaderMeta data
    if 0 < qdcount then
      match readQName data 12 (data.length + 1) with
      | .error e => (m0, some e)
      | .ok (parts, off) =>
          let m1 := m0 ++ [("query_name", .s (String.intercalate "." parts))]
          let m2 :=
            if off + 4 ≤ data.length then
              m1 ++ [("query_type", .s (qtypeName (be16 data off))),
                     ("query_class", .s (qclassName (be16 data (off + 2))))]
            else m1
          dnsAnswersPart data m2 qr ancount qdcount
    else dnsAnswersPart data m0 qr ancount qdcount

/-- `DNSProtocolHandler.parse_packet` (dns.py lines 92-246): the
`except` clause records any exception as a `parse_error` field on the
metadata accumulated so far. -/
def dnsParsePacket (data : List Nat) (direction : String) : Metadata :=
  match dnsInner data with
  | (m, none) => m
  | (m, some e) => mput m "parse_error" (.s e)

theorem and_one_decide_eq_testBit (x k : Nat) :
    decide ((x >>> k) &&& 1 ≠ 0) = Nat.testBit x k := by
  simp [Nat.testBit_to_div_mod, Nat.and_one_is_mod, Nat.shiftRight_eq_div_pow]

theorem and15_eq_mod16 (x : Nat) : x &&& 15 = x % 16 := by
  have h := Nat.and_pow_two_sub_one_eq_mod x 4
  norm_num at h
  omega

/-- On every datagram of at least 12 bytes, `parse_packet` preserves the
header metadata entries: whatever the later (possibly failing)
query-name and answer sections do, they only append fresh keys or add a
`parse_error` key. -/
theorem dns_header_lookup (data : List Nat) (direction : String)
    (hlen : 12 ≤ data.length) (key : String) (v : MVal)
    (hk : key ≠ "parse_error")
    (hv : mget (dnsHeaderMeta data) key = some v) :
    mget (dnsParsePacket data direction) key = some v := by
  have hcases :
      (∃ rest, dnsInner data = (dnsHeaderMeta data ++ rest, none))
      ∨ (∃ e, dnsInner data = (dnsHeaderMeta data, some e)) := by
    unfold dnsInner
    rw [if_neg (by omega)]
    by_cases hq : 0 < be16 data 4
    · rw [if_pos hq]
      cases hname : readQName data 12 (data.length + 1) with
      | error e => exact Or.inr ⟨e, rfl⟩
      | ok po =>
          obtain ⟨parts, off⟩ := po
          left
          unfold dnsAnswersPart
          by_cases hoff : off + 4 ≤ data.length <;>
            simp only [hoff, if_true, if_false, List.append_assoc] <;>
              split
          · exact ⟨_, rfl⟩
          · exact ⟨_, rfl⟩
          · exact ⟨_, rfl⟩
          · exact ⟨_, rfl⟩
    · rw [if_neg hq]
      left
      unfold dnsAnswersPart
      split
      · exact ⟨_, rfl⟩
      · exact ⟨[], by simp⟩
  rcases hcases with ⟨rest, heq⟩ | ⟨e, heq⟩
  · rw [dnsParsePacket, heq]
    exact mget_append_left _ _ _ _ hv
  · rw [dnsParsePacket, heq]
    rw [mget_mput_ne _ _ _ _ hk]
    exact hv

/-- A standard query for `example.com` (transaction id 0x1234, flags
0x0100, one question, type A, class IN) with the name encoded as
length-prefixed labels `7 example 3 com 0`. -/
def exampleComQuery : List Nat :=
  [0x12, 0x34, 0x01, 0x00, 0x00, 0x01, 0x00, 0x00, 0x00, 0x00, 0x00, 0x00,
   7, 101, 120, 97, 109, 112, 108, 101, 3, 99, 111, 109, 0,
   0x00, 0x01, 0x00, 0x01]

/-- C6: for every DNS datagram of at least 12 bytes the decoded flag
fields match the bits of the big-endian flags word (bytes 2-3):
is_response is bit 15, opcode bits 11-14, authoritative bit 10,
truncated bit 9, recursion_desired bit 8, recursion_available bit 7,
response_code bits 0-3; and for a standard query whose question name is
`example.com` encoded as length-prefixed labels, `query_name` decodes to
the string "example.com". -/
theorem dns_parse_flag_bits_and_query_name :
    (∀ (data : List Nat) (direction : String), 12 ≤ data.length →
      mget (dnsParsePacket data direction) "is_response"
        = some (.b (Nat.testBit (be16 data 2) 15))
      ∧ mget (dnsParsePacket data direction) "opcode"
        = some (.n (Int.ofNat (be16 data 2 / 2 ^ 11 % 16)))
      ∧ mget (dnsParsePacket data direction) "authoritative"
        = some (.b (Nat.testBit (be16 data 2) 10))
      ∧ mget (dnsParsePacket data direction) "truncated"
        = some (.b (Nat.testBit (be16 data 2) 9))
      ∧ mget (dnsParsePacket data direction) "recursion_desired"
        = some (.b (Nat.testBit (be16 data 2) 8))
      ∧ mget (dnsParsePacket data direction) "recursion_available"
        = some (.b (Nat.testBit (be16 data 2) 7))
      ∧ mget (dnsParsePacket data direction) "response_code"
        = some (.n (Int.ofNat (be16 data 2 % 16))))
    ∧ mget (dnsParsePacket exampleComQuery "client_to_server") "query_name"
        = some (.s "example.com") := by
  constructor
  · intro data direction hlen
    refine ⟨?_, ?_, ?_, ?_, ?_, ?_, ?_⟩ <;>
      refine dns_header_lookup data direction hlen _ _ (by simp) ?_ <;>
        simp [dnsHeaderMeta, mget, and_one_decide_eq_testBit,
              Nat.shiftRight_eq_div_pow, and15_eq_mod16,
              Nat.testBit_to_div_mod]
  · rfl

/-- Witness for C6 at the concrete `example.com` query (29 bytes). -/
theorem dns_parse_flag_bits_witness :
    mget (dnsParsePacket exampleComQuery "client_to_server") "is_response"
      = some (.b (Nat.testBit (be16 exampleComQuery 2) 15))
    ∧ mget (dnsParsePacket exampleComQuery "client_to_server")
        "recursion_desired"
      = some (.b (Nat.testBit (be16 exampleComQuery 2) 8))
    ∧ mget (dnsParsePacket exampleComQuery "client_to_server") "query_name"
      = some (.s "example.com") :=
  ⟨(dns_parse_flag_bits_and_query_name.1 exampleComQuery "client_to_server"
      (by decide)).1,
   (dns_parse_flag_bits_and_query_name.1 exampleComQuery "client_to_server"
      (by decide)).2.2.2.2.1,
   dns_parse_flag_bits_and_query_name.2⟩

/-! ## `src/protocols/http.py` — `HTTPProtocolHandler.parse_packet`

The parser splits the raw bytes on CRLF and decodes each line with
`errors='ignore'`; the data is modelled directly as the character list
(exact for ASCII input, which is all the claims quantify over).  Nothing
inside the `try` block can raise: splitting, decoding with
`errors='ignore'` and dictionary operations are total, and the header
loop guards its accesses, so the inner body is modelled as a total
function paired with a literal `none` error component. -/

/-- `bytes.split(b'\r\n')`: leftmost, non-overlapping, keeps empties. -/
def splitCRLF : List Char → List (List Char)
  | [] => [[]]
  | [c] => [[c]]
  | a :: b :: rest =>
      if a = '\r' ∧ b = '\n' then [] :: splitCRLF rest
      else
        match splitCRLF (b :: rest) with
        | [] => [[a]]
        | l :: ls => (a :: l) :: ls

/-- Python `str.split(sep)` with an explicit one-character separator:
keeps empty fields. -/
def splitChar (sep : Char) : List Char → List (List Char)
  | [] => [[]]
  | c :: rest =>
      if c = sep then [] :: splitChar sep rest
      else
        match splitChar sep rest with
        | [] => [[c]]
        | l :: ls => (c :: l) :: ls

/-- Python `str.split(sep, 1)`: the part before the first separator and,
when the separator occurs, the part after it. -/
def splitOnceChar (sep : Char) : List Char → List Char × Option (List Char)
  | [] => ([], none)
  | c :: rest =>
      if c = sep then ([], some rest)
      else
        ((c :: (splitOnceChar sep rest).1), (splitOnceChar sep rest).2)

/-- Python `str.split(sep, maxsplit)` for a one-character separator. -/
def splitLimit (sep : Char) : Nat → List Char → List (List Char)
  | _, [] => [[]]
  | 0, s => [s]
  | n + 1, c :: rest =>
      if c = sep then [] :: splitLimit sep n rest
      else
        match splitLimit sep (n + 1) rest with
        | [] => [[c]]
        | l :: ls => (c :: l) :: ls

/-- The ASCII whitespace stripped by Python `str.strip()` (the full set
also contains unicode spaces, which cannot arise from byte input). -/
def isSpaceChar (c : Char) : Bool :=
  c = ' ' ∨ c = '\t' ∨ c = '\n' ∨ c = '\r' ∨ c = '\x0b' ∨ c = '\x0c'

def lstrip (s : List Char) : List Char := s.dropWhile isSpaceChar

def rstrip (s : List Char) : List Char :=
  (s.reverse.dropWhile isSpaceChar).reverse

/-- Python `str.strip()`. -/
def pstrip (s : List Char) : List Char := rstrip (lstrip s)

/-- A headers dictionary (string keys and values), same insertion-order
semantics as `Metadata`. -/
def hput : List (String × String) → String → String → List (String × String)
  | [], k, v => [(k, v)]
  | kv :: rest, k, v => if kv.1 = k then (k, v) :: rest else kv :: hput rest k v

def hget : List (String × String) → String → Option String
  | [], _ => none
  | kv :: rest, k => if kv.1 = k then some kv.2 else hget rest k

/-- The header loop of `parse_packet` (http.py lines 193-202 and
218-227): stops at the first empty line (`not line or line == b'\r\n'`),
keeps only lines containing a colon, and stores
`name.strip() -> value.strip()`. -/
def parseHeaderLines : List (List Char) → List (String × String) →
    List (String × String)
  | [], acc => acc
  | line :: rest, acc =>
      if line = [] ∨ line = ['\r', '\n'] then acc
      else if (':' : Char) ∈ line then
        -- `name, value = header_line.split(':', 1)`: the separator is
        -- present, so the second component is always `some`
        let nv := splitOnceChar ':' line
        parseHeaderLines rest
          (hput acc (String.mk (pstrip nv.1))
            (String.mk (pstrip (nv.2.getD []))))
      else parseHeaderLines rest acc

def isPrefixList : List Char → List Char → Bool
  | [], _ => true
  | _ :: _, [] => false
  | a :: as, b :: bs => a = b && isPrefixList as bs

/-- Python `pat in data` for a byte-string pattern. -/
def containsSub (pat : List Char) : List Char → Bool
  | [] => isPrefixList pat []
  | c :: rest => isPrefixList pat (c :: rest) || containsSub pat rest

/-- Python `data.split(pat, 1)`: the part after the first occurrence of
the pattern, when present. -/
def splitOnceSub (pat : List Char) : List Char → Option (List Char)
  | [] => none
  | c :: rest =>
      if isPrefixList pat (c :: rest) then some ((c :: rest).drop pat.length)
      else splitOnceSub pat rest

/-- `content_type.startswith(('text/', 'application/json',
'application/xml'))`. -/
def isTextualContentType (ct : String) : Bool :=
  isPrefixList "text/".data ct.data
  || isPrefixList "application/json".data ct.data
  || isPrefixList "application/xml".data ct.data

/-- The request-line / status-line and header part of `parse_packet`
(http.py lines 179-227), by direction. -/
def httpFirstPart (data : List Char) (direction : String) : Metadata :=
  let lines := splitCRLF data
  if direction = "client_to_server" then
    let m0 : Metadata :=
      match lines with
      | [] => []
      | l0 :: _ =>
          match splitChar ' ' l0 with
          | p0 :: p1 :: p2 :: _ =>
              [("method", .s (String.mk p0)), ("path", .s (String.mk p1)),
               ("version", .s (String.mk p2))]
          | _ => []
    m0 ++ [("headers", .dict (parseHeaderLines (lines.drop 1) []))]
  else
    let m0 : Metadata :=
      match lines with
      | [] => []
      | l0 :: _ =>
          match splitLimit ' ' 2 l0 with
          | p0 :: p1 :: p2 :: _ =>
              [("version", .s (String.mk p0)),
               ("status_code", .s (String.mk p1)),
               ("status_message", .s (String.mk p2))]
          | _ => []
    m0 ++ [("headers", .dict (parseHeaderLines (lines.drop 1) []))]

/-- The entries appended by the common tail of `parse_packet` (http.py
lines 229-244): `content_type` read from the headers dict already in
the metadata, then `body_length` and — for textual content types — a
bounded `body_preview` when a blank-line separator is present.  The
source assigns these to the dictionary one by one; every key is fresh,
so the assignments are an append. -/
def httpTailEntries (data : List Char) (m : Metadata) : Metadata :=
  let ct :=
    match mget m "headers" with
    | some (.dict h) => (hget h "Content-Type").getD ""
    | _ => ""
  let e := [("content_type", MVal.s ct)]
  if containsSub ['\r', '\n', '\r', '\n'] data then
    match splitOnceSub ['\r', '\n', '\r', '\n'] data with
    | some body =>
        let e := e ++ [("body_length", MVal.n body.length)]
        if isTextualContentType ct then
          e ++ [("body_preview", MVal.s (String.mk (body.take 100)))]
        else e
    | none => e
  else e

def httpCommonTail (data : List Char) (m : Metadata) : Metadata :=
  m ++ httpTailEntries data m

/-- The `try` block of `HTTPProtocolHandler.parse_packet` (http.py lines
177-244); no operation in it can raise, so the error component is
`none` by construction. -/
def httpInner (data : List Char) (direction : String) :
    Metadata × Option String :=
  (httpCommonTail data (httpFirstPart data direction), none)

/-- `HTTPProtocolHandler.parse_packet` (http.py lines 164-250). -/
def httpParsePacket (data : List Char) (direction : String) : Metadata :=
  match httpInner data direction with
  | (m, none) => m
  | (m, some e) => mput m "parse_error" (.s e)

/-- The CRLF-terminated header block: one `name: value` line per
pair. -/
def joinHeaderLines (hs : List (List Char × List Char)) : List Char :=
  (hs.map (fun p => p.1 ++ ':' :: p.2 ++ ['\r', '\n'])).flatten

theorem splitCRLF_cons_append (l rest : List Char)
    (h : ('\r' : Char) ∉ l) :
    splitCRLF (l ++ '\r' :: '\n' :: rest) = l :: splitCRLF rest := by
  induction l with
  | nil => simp [splitCRLF]
  | cons c l' ih =>
      have hc : c ≠ '\r' := fun hh => h (by simp [hh])
      have h' : ('\r' : Char) ∉ l' := fun hh => h (List.mem_cons_of_mem _ hh)
      have ih' := ih h'
      cases l' with
      | nil => simp [splitCRLF, hc]
      | cons d l'' =>
          simp only [List.cons_append] at ih' ⊢
          rw [splitCRLF.eq_def]
          simp only [hc, false_and, if_false]
          rw [ih']

theorem splitChar_cons_append (sep : Char) (a rest : List Char)
    (h : sep ∉ a) :
    splitChar sep (a ++ sep :: rest) = a :: splitChar sep rest := by
  induction a with
  | nil => simp [splitChar]
  | cons c a' ih =>
      have hc : c ≠ sep := fun hh => h (by simp [hh])
      have h' : sep ∉ a' := fun hh => h (List.mem_cons_of_mem _ hh)
      simp only [List.cons_append, splitChar, hc, if_false, List.append_eq]
      rw [ih h']

theorem splitChar_no_sep (sep : Char) (a : List Char) (h : sep ∉ a) :
    splitChar sep a = [a] := by
  induction a with
  | nil => simp [splitChar]
  | cons c a' ih =>
      have hc : c ≠ sep := fun hh => h (by simp [hh])
      have h' : sep ∉ a' := fun hh => h (List.mem_cons_of_mem _ hh)
      simp only [splitChar, hc, if_false, ih h']

theorem splitOnceChar_append (sep : Char) (a b : List Char) (h : sep ∉ a) :
    splitOnceChar sep (a ++ sep :: b) = (a, some b) := by
  induction a with
  | nil => simp [splitOnceChar]
  | cons c a' ih =>
      have hc : c ≠ sep := fun hh => h (by simp [hh])
      have h' : sep ∉ a' := fun hh => h (List.mem_cons_of_mem _ hh)
      simp only [List.cons_append, splitOnceChar, hc, if_false,
        List.append_eq]
      rw [ih h']

theorem hput_fresh (acc : List (String × String)) (k v : String)
    (h : ∀ kv ∈ acc, kv.1 ≠ k) : hput acc k v = acc ++ [(k, v)] := by
  induction acc with
  | nil => rfl
  | cons kv rest ih =>
      have hk : kv.1 ≠ k := h kv (by simp)
      simp only [hput, hk, if_false, List.cons_append]
      rw [ih (fun kv' hkv' => h kv' (List.mem_cons_of_mem _ hkv'))]

theorem splitCRLF_joinHeaderLines (hs : List (List Char × List Char))
    (h : ∀ p ∈ hs, ('\r' : Char) ∉ p.1 ∧ ('\r' : Char) ∉ p.2) :
    splitCRLF (joinHeaderLines hs)
      = (hs.map (fun p => p.1 ++ ':' :: p.2)) ++ [[]] := by
  induction hs with
  | nil => simp [joinHeaderLines, splitCRLF]
  | cons p hs' ih =>
      have hp := h p (by simp)
      have hline : ('\r' : Char) ∉ p.1 ++ ':' :: p.2 := by
        intro hmem
        rcases List.mem_append.mp hmem with hm | hm
        · exact hp.1 hm
        · rcases List.mem_cons.mp hm with hm | hm
          · exact absurd hm.symm (by decide)
          · exact hp.2 hm
      have hjoin : joinHeaderLines (p :: hs')
          = (p.1 ++ ':' :: p.2) ++ '\r' :: '\n' :: joinHeaderLines hs' := by
        simp [joinHeaderLines]
      rw [hjoin, splitCRLF_cons_append _ _ hline,
          ih (fun q hq => h q (List.mem_cons_of_mem _ hq))]
      simp

theorem parseHeaderLines_eval (hs : List (List Char × List Char))
    (acc : List (String × String))
    (hcolon : ∀ p ∈ hs, (':' : Char) ∉ p.1)
    (hfresh : ∀ p ∈ hs, ∀ kv ∈ acc, kv.1 ≠ String.mk (pstrip p.1))
    (hnodup : (hs.map (fun p => String.mk (pstrip p.1))).Nodup) :
    parseHeaderLines ((hs.map (fun p => p.1 ++ ':' :: p.2)) ++ [[]]) acc
      = acc ++ hs.map
          (fun p => (String.mk (pstrip p.1), String.mk (pstrip p.2))) := by
  induction hs generalizing acc with
  | nil => simp [parseHeaderLines]
  | cons p hs' ih =>
      have hcol : (':' : Char) ∈ p.1 ++ ':' :: p.2 := by simp
      have hne : ¬(p.1 ++ ':' :: p.2 = []
          ∨ p.1 ++ ':' :: p.2 = ['\r', '\n']) := by
        rintro (hl | hl) <;> rw [hl] at hcol <;> revert hcol <;> decide
      simp only [List.map_cons, List.cons_append, parseHeaderLines,
        if_neg hne, hcol, if_true, if_pos]
      rw [splitOnceChar_append _ _ _ (hcolon p (by simp))]
      simp only [Option.getD_some]
      rw [hput_fresh acc _ _ (hfresh p (by simp))]
      simp only [List.append_eq]
      have hnodup' : String.mk (pstrip p.1)
            ∉ hs'.map (fun q => String.mk (pstrip q.1))
          ∧ (hs'.map (fun q => String.mk (pstrip q.1))).Nodup := by
        rw [List.map_cons, List.nodup_cons] at hnodup
        exact hnodup
      rw [ih (acc ++ [(String.mk (pstrip p.1), String.mk (pstrip p.2))])
            (fun q hq => hcolon q (List.mem_cons_of_mem _ hq))
            (fun q hq kv hkv => ?_)
            hnodup'.2]
      · simp
      · rcases List.mem_append.mp hkv with hm | hm
        · exact hfresh q (List.mem_cons_of_mem _ hq) kv hm
        · -- kv is the entry just inserted for p; its key differs from
          -- q's key because the stripped names are pairwise distinct
          have hkvp : kv
              = (String.mk (pstrip p.1), String.mk (pstrip p.2)) := by
            simpa using hm
          rw [hkvp]
          intro hq'
          apply hnodup'.1
          have hpq : String.mk (pstrip p.1) = String.mk (pstrip q.1) := by
            simpa using hq'
          rw [hpq]
          exact List.mem_map_of_mem _ hq

/-- The tail of the HTTP parser only appends entries to the metadata it
is given. -/
theorem httpCommonTail_append (data : List Char) (m : Metadata) :
    ∃ rest, httpCommonTail data m = m ++ rest :=
  ⟨httpTailEntries data m, rfl⟩

/-- C7: for every valid HTTP request consisting of a request line
`method SP path SP version` and CRLF-separated `name: value` header
lines (tokens free of embedded separators: no spaces in the request-line
tokens, no colon in header names, no CR anywhere, and header names
pairwise distinct after stripping), `parse_packet` in the
client_to_server direction recovers method, path and version, and
recovers every header pair with the name's case preserved and
surrounding whitespace trimmed from names and values. -/
theorem http_request_parse_recovers
    (method path version : List Char) (hs : List (List Char × List Char))
    (data : List Char)
    (hdata : data = method ++ ' ' :: (path ++ ' ' :: (version
        ++ '\r' :: '\n' :: joinHeaderLines hs)))
    (hm : (' ' : Char) ∉ method ∧ ('\r' : Char) ∉ method)
    (hp : (' ' : Char) ∉ path ∧ ('\r' : Char) ∉ path)
    (hv : (' ' : Char) ∉ version ∧ ('\r' : Char) ∉ version)
    (hhdr : ∀ q ∈ hs, (':' : Char) ∉ q.1 ∧ ('\r' : Char) ∉ q.1
        ∧ ('\r' : Char) ∉ q.2)
    (hnodup : (hs.map (fun q => String.mk (pstrip q.1))).Nodup) :
    mget (httpParsePacket data "client_to_server") "method"
        = some (.s (String.mk method))
    ∧ mget (httpParsePacket data "client_to_server") "path"
        = some (.s (String.mk path))
    ∧ mget (httpParsePacket data "client_to_server") "version"
        = some (.s (String.mk version))
    ∧ mget (httpParsePacket data "client_to_server") "headers"
        = some (.dict (hs.map
            (fun q => (String.mk (pstrip q.1), String.mk (pstrip q.2))))) := by
  have hdata' : data = (method ++ ' ' :: (path ++ ' ' :: version))
      ++ '\r' :: '\n' :: joinHeaderLines hs := by
    rw [hdata]
    simp [List.append_assoc]
  have hrlnoCR : ('\r' : Char) ∉ method ++ ' ' :: (path ++ ' ' :: version) := by
    simp only [List.mem_append, List.mem_cons]
    rintro (h1 | h1 | h1 | h1 | h1)
    · exact hm.2 h1
    · exact absurd h1 (by decide)
    · exact hp.2 h1
    · exact absurd h1 (by decide)
    · exact hv.2 h1
  have hsplitall : splitCRLF data
      = (method ++ ' ' :: (path ++ ' ' :: version))
          :: ((hs.map (fun q => q.1 ++ ':' :: q.2)) ++ [[]]) := by
    rw [hdata', splitCRLF_cons_append _ _ hrlnoCR,
        splitCRLF_joinHeaderLines hs (fun q hq => ⟨(hhdr q hq).2.1, (hhdr q hq).2.2⟩)]
  have hsplitrl : splitChar ' ' (method ++ ' ' :: (path ++ ' ' :: version))
      = method :: path :: [version] := by
    rw [splitChar_cons_append _ _ _ hm.1, splitChar_cons_append _ _ _ hp.1,
        splitChar_no_sep _ _ hv.1]
  have hparse : parseHeaderLines ((hs.map (fun q => q.1 ++ ':' :: q.2)) ++ [[]]) []
      = hs.map (fun q => (String.mk (pstrip q.1), String.mk (pstrip q.2))) := by
    rw [parseHeaderLines_eval hs [] (fun q hq => (hhdr q hq).1)
          (fun q hq kv hkv => absurd hkv (List.not_mem_nil kv)) hnodup]
    simp
  have hfirst : httpFirstPart data "client_to_server"
      = [("method", MVal.s (String.mk method)),
         ("path", MVal.s (String.mk path)),
         ("version", MVal.s (String.mk version)),
         ("headers", MVal.dict (hs.map
            (fun q => (String.mk (pstrip q.1), String.mk (pstrip q.2)))))] := by
    unfold httpFirstPart
    rw [hsplitall]
    simp only [if_pos rfl, List.drop_succ_cons, List.drop_zero]
    rw [hsplitrl, hparse]
    simp
  have hpp : httpParsePacket data "client_to_server"
      = [("method", MVal.s (String.mk method)),
         ("path", MVal.s (String.mk path)),
         ("version", MVal.s (String.mk version)),
         ("headers", MVal.dict (hs.map
            (fun q => (String.mk (pstrip q.1), String.mk (pstrip q.2)))))]
        ++ httpTailEntries data (httpFirstPart data "client_to_server") := by
    unfold httpParsePacket httpInner httpCommonTail
    rw [hfirst]
  refine ⟨?_, ?_, ?_, ?_⟩ <;> rw [hpp] <;>
    exact mget_append_left _ _ _ _ (by simp [mget])

/-- Witness for C7: `GET /index.html HTTP/1.1` with headers
`Host: example.com` and `X-Test: 1` (note the leading space of the
values is stripped). -/
theorem http_request_parse_recovers_witness :
    mget (httpParsePacket
        ("GET /index.html HTTP/1.1\r\nHost: example.com\r\nX-Test: 1\r\n".data)
        "client_to_server") "method" = some (.s "GET")
    ∧ mget (httpParsePacket
        ("GET /index.html HTTP/1.1\r\nHost: example.com\r\nX-Test: 1\r\n".data)
        "client_to_server") "path" = some (.s "/index.html")
    ∧ mget (httpParsePacket
        ("GET /index.html HTTP/1.1\r\nHost: example.com\r\nX-Test: 1\r\n".data)
        "client_to_server") "version" = some (.s "HTTP/1.1")
    ∧ mget (httpParsePacket
        ("GET /index.html HTTP/1.1\r\nHost: example.com\r\nX-Test: 1\r\n".data)
        "client_to_server") "headers"
      = some (.dict [("Host", "example.com"), ("X-Test", "1")]) := by
  have h := http_request_parse_recovers "GET".data "/index.html".data
    "HTTP/1.1".data [("Host".data, " example.com".data), ("X-Test".data, " 1".data)]
    ("GET /index.html HTTP/1.1\r\nHost: example.com\r\nX-Test: 1\r\n".data)
    (by decide) (by decide) (by decide) (by decide) (by decide) (by decide)
  exact h

/-! ## `src/protocols/ftp.py` — `FTPProtocolHandler.parse_packet`

Commands and responses are text; the data is modelled as the decoded
character list.  Nothing inside the `try` block can raise (decoding uses
`errors='ignore'`, `code[0]` is guarded by the `isdigit()` check on a
nonempty string, `int()` is applied to regex-matched digit groups), so
the function is total and the `except`/`parse_error` path of the source
is unreachable.

The regex `\((\d+),(\d+),(\d+),(\d+),(\d+),(\d+)\)` is deterministic:
each `\d+` is a maximal digit run followed by a non-digit literal, so
the scanner below (leftmost match, maximal munch) is equivalent. -/

def isDigitChar (c : Char) : Bool := decide ('0' ≤ c ∧ c ≤ '9')

/-- Python `int()` on a digit string. -/
def decVal (ds : List Char) : Nat :=
  ds.foldl (fun acc c => acc * 10 + (c.toNat - 48)) 0

def expectChar (c : Char) : List Char → Option (List Char)
  | x :: rest => if x = c then some rest else none
  | [] => none

/-- One `(\d+)` group: a maximal nonempty digit run. -/
def matchDigits (cs : List Char) : Option (List Char × List Char) :=
  let ds := cs.takeWhile isDigitChar
  if ds = [] then none else some (ds, cs.dropWhile isDigitChar)

/-- Attempt to match `\((\d+),(\d+),(\d+),(\d+),(\d+),(\d+)\)` at the
head of the input, returning the six digit groups. -/
def tryPasv (cs : List Char) : Option (List (List Char)) := do
  let r0 ← expectChar '(' cs
  let (g1, r1) ← matchDigits r0
  let r1b ← expectChar ',' r1
  let (g2, r2) ← matchDigits r1b
  let r2b ← expectChar ',' r2
  let (g3, r3) ← matchDigits r2b
  let r3b ← expectChar ',' r3
  let (g4, r4) ← matchDigits r3b
  let r4b ← expectChar ',' r4
  let (g5, r5) ← matchDigits r4b
  let r5b ← expectChar ',' r5
  let (g6, r6) ← matchDigits r5b
  let _ ← expectChar ')' r6
  some [g1, g2, g3, g4, g5, g6]

/-- `re.search`: leftmost match. -/
def findPasv : List Char → Option (List (List Char))
  | [] => none
  | c :: rest =>
      match tryPasv (c :: rest) with
      | some gs => some gs
      | none => findPasv rest

/-- `FTPProtocolHandler.parse_packet` (ftp.py lines 223-297). -/
def ftpParsePacket (data : List Char) (direction : String) : Metadata :=
  let text := pstrip data
  if direction = "client_to_server" then
    let nv := splitOnceChar ' ' text
    let command := String.mk (nv.1.map Char.toUpper)
    let m : Metadata := [("command", .s command)]
    let m := match nv.2 with
      | some arg => m ++ [("argument", MVal.s (String.mk arg))]
      | none => m
    if command = "USER" then
      m ++ [("username", .s (match nv.2 with
        | some a => String.mk a
        | none => ""))]
    else if command = "PASS" then
      m ++ [("password", .s "********")]
    else if command = "CWD" ∨ command = "CDUP" ∨ command = "PWD" then
      m ++ [("directory_operation", .b true)]
    else if command = "RETR" ∨ command = "STOR" ∨ command = "LIST"
        ∨ command = "NLST" then
      let m := m ++ [("data_channel_operation", .b true)]
      match nv.2 with
      | some a =>
          if command = "RETR" ∨ command = "STOR" then
            m ++ [("filename", .s (String.mk a))]
          else m
      | none => m
    else m
  else
    let nv := splitOnceChar ' ' text
    if nv.1 ≠ [] ∧ nv.1.all isDigitChar then
      let code := String.mk nv.1
      let m : Metadata := [("response_code", .s code)]
      let m := match nv.2 with
        | some msg => m ++ [("response_message", MVal.s (String.mk msg))]
        | none => m
      let c0 := nv.1.headD ' '
      let m :=
        if c0 = '1' then m ++ [("response_type", MVal.s "preliminary")]
        else if c0 = '2' then m ++ [("response_type", MVal.s "completion")]
        else if c0 = '3' then m ++ [("response_type", MVal.s "intermediate")]
        else if c0 = '4' then
          m ++ [("response_type", MVal.s "transient_negative")]
        else if c0 = '5' then
          m ++ [("response_type", MVal.s "permanent_negative")]
        else m
      if code = "227" then
        match findPasv text with
        | some [g1, g2, g3, g4, g5, g6] =>
            m ++ [("passive_ip", .s (toString (decVal g1) ++ "."
                    ++ toString (decVal g2) ++ "." ++ toString (decVal g3)
                    ++ "." ++ toString (decVal g4))),
                  ("passive_port", .n (decVal g5 * 256 + decVal g6))]
        | _ => m
      else m
    else []

theorem takeWhile_append_of_all (p : Char → Bool) (a : List Char)
    (c : Char) (rest : List Char) (ha : ∀ x ∈ a, p x = true)
    (hc : p c = false) :
    (a ++ c :: rest).takeWhile p = a
    ∧ (a ++ c :: rest).dropWhile p = c :: rest := by
  induction a with
  | nil => simp [List.takeWhile, List.dropWhile, hc]
  | cons x a' ih =>
      have hx : p x = true := ha x (by simp)
      have ih' := ih (fun y hy => ha y (List.mem_cons_of_mem _ hy))
      simp only [List.cons_append, List.takeWhile_cons, List.dropWhile_cons,
        hx, if_true, ih'.1, ih'.2, true_and, and_true, if_pos]

theorem matchDigits_group (g : List Char) (c : Char) (rest : List Char)
    (hg : g ≠ []) (hd : ∀ x ∈ g, isDigitChar x = true)
    (hc : isDigitChar c = false) :
    matchDigits (g ++ c :: rest) = some (g, c :: rest) := by
  have h := takeWhile_append_of_all isDigitChar g c rest hd hc
  simp [matchDigits, h.1, h.2, hg]

theorem findPasv_prefix (pre body : List Char) (h : ('(' : Char) ∉ pre)
    (gs : List (List Char)) (ht : tryPasv ('(' :: body) = some gs) :
    findPasv (pre ++ '(' :: body) = some gs := by
  induction pre with
  | nil => simp [findPasv, ht]
  | cons c pre' ih =>
      have hc : c ≠ '(' := fun hh => h (by simp [hh])
      have h' : ('(' : Char) ∉ pre' := fun hh => h (List.mem_cons_of_mem _ hh)
      have htry : tryPasv (c :: (pre' ++ '(' :: body)) = none := by
        simp [tryPasv, expectChar, hc]
      simp only [List.cons_append, List.append_eq, findPasv]
      rw [htry]
      exact ih h'

theorem rstrip_concat (l : List Char) (c : Char)
    (h : isSpaceChar c = false) : rstrip (l ++ [c]) = l ++ [c] := by
  unfold rstrip
  rw [List.reverse_append]
  simp [List.dropWhile_cons, h]

theorem tryPasv_groups (g1 g2 g3 g4 g5 g6 : List Char)
    (h1 : g1 ≠ [] ∧ ∀ x ∈ g1, isDigitChar x = true)
    (h2 : g2 ≠ [] ∧ ∀ x ∈ g2, isDigitChar x = true)
    (h3 : g3 ≠ [] ∧ ∀ x ∈ g3, isDigitChar x = true)
    (h4 : g4 ≠ [] ∧ ∀ x ∈ g4, isDigitChar x = true)
    (h5 : g5 ≠ [] ∧ ∀ x ∈ g5, isDigitChar x = true)
    (h6 : g6 ≠ [] ∧ ∀ x ∈ g6, isDigitChar x = true) :
    tryPasv ('(' :: (g1 ++ ',' :: (g2 ++ ',' :: (g3 ++ ',' :: (g4 ++ ','
        :: (g5 ++ ',' :: (g6 ++ [')'])))))))
      = some [g1, g2, g3, g4, g5, g6] := by
  have hcomma : isDigitChar ',' = false := by decide
  have hparen : isDigitChar ')' = false := by decide
  have m1 := matchDigits_group g1 ','
    (g2 ++ ',' :: (g3 ++ ',' :: (g4 ++ ',' :: (g5 ++ ',' :: (g6 ++ [')'])))))
    h1.1 h1.2 hcomma
  have m2 := matchDigits_group g2 ','
    (g3 ++ ',' :: (g4 ++ ',' :: (g5 ++ ',' :: (g6 ++ [')']))))
    h2.1 h2.2 hcomma
  have m3 := matchDigits_group g3 ','
    (g4 ++ ',' :: (g5 ++ ',' :: (g6 ++ [')']))) h3.1 h3.2 hcomma
  have m4 := matchDigits_group g4 ','
    (g5 ++ ',' :: (g6 ++ [')'])) h4.1 h4.2 hcomma
  have m5 := matchDigits_group g5 ',' (g6 ++ [')']) h5.1 h5.2 hcomma
  have m6 := matchDigits_group g6 ')' [] h6.1 h6.2 hparen
  simp [tryPasv, expectChar, m1, m2, m3, m4, m5, m6]

/-- C5: for every well-formed FTP 227 response whose text contains the
parenthesized group `(h1,h2,h3,h4,p1,p2)` of six decimal integer groups,
`parse_packet` in the server_to_client direction records
`passive_ip = "h1.h2.h3.h4"` and `passive_port = p1*256 + p2`, where
`hi`/`pi` are the integer values of the groups. -/
theorem ftp_227_passive_parse
    (g1 g2 g3 g4 g5 g6 : List Char) (data : List Char)
    (hdata : data = '2' :: '2' :: '7' :: ' '
        :: ("Entering Passive Mode ".data
          ++ '(' :: (g1 ++ ',' :: (g2 ++ ',' :: (g3 ++ ',' :: (g4 ++ ','
            :: (g5 ++ ',' :: (g6 ++ [')']))))))))
    (h1 : g1 ≠ [] ∧ ∀ x ∈ g1, isDigitChar x = true)
    (h2 : g2 ≠ [] ∧ ∀ x ∈ g2, isDigitChar x = true)
    (h3 : g3 ≠ [] ∧ ∀ x ∈ g3, isDigitChar x = true)
    (h4 : g4 ≠ [] ∧ ∀ x ∈ g4, isDigitChar x = true)
    (h5 : g5 ≠ [] ∧ ∀ x ∈ g5, isDigitChar x = true)
    (h6 : g6 ≠ [] ∧ ∀ x ∈ g6, isDigitChar x = true) :
    mget (ftpParsePacket data "server_to_client") "passive_ip"
      = some (.s (toString (decVal g1) ++ "." ++ toString (decVal g2)
          ++ "." ++ toString (decVal g3) ++ "." ++ toString (decVal g4)))
    ∧ mget (ftpParsePacket data "server_to_client") "passive_port"
      = some (.n (decVal g5 * 256 + decVal g6)) := by
  have hl : lstrip data = data := by
    rw [hdata]
    simp [lstrip, List.dropWhile_cons, isSpaceChar]
  have hconcat : data = ('2' :: '2' :: '7' :: ' '
      :: ("Entering Passive Mode ".data
        ++ '(' :: (g1 ++ ',' :: (g2 ++ ',' :: (g3 ++ ',' :: (g4 ++ ','
          :: (g5 ++ ',' :: g6))))))) ++ [')'] := by
    rw [hdata]
    simp [List.append_assoc]
  have hps : pstrip data = data := by
    unfold pstrip
    rw [hl]
    conv_lhs => rw [hconcat]
    rw [rstrip_concat _ ')' (by decide)]
    exact hconcat.symm
  have hform : data = ('2' :: '2' :: '7' :: ' '
      :: "Entering Passive Mode ".data)
      ++ '(' :: (g1 ++ ',' :: (g2 ++ ',' :: (g3 ++ ',' :: (g4 ++ ','
        :: (g5 ++ ',' :: (g6 ++ [')'])))))) := by
    rw [hdata]
    simp
  have hfind : findPasv data = some [g1, g2, g3, g4, g5, g6] := by
    rw [hform]
    exact findPasv_prefix _ _ (by decide) _
      (tryPasv_groups g1 g2 g3 g4 g5 g6 h1 h2 h3 h4 h5 h6)
  have hnv : splitOnceChar ' ' data
      = (['2', '2', '7'], some ("Entering Passive Mode ".data
          ++ '(' :: (g1 ++ ',' :: (g2 ++ ',' :: (g3 ++ ',' :: (g4 ++ ','
            :: (g5 ++ ',' :: (g6 ++ [')'])))))))) := by
    rw [hdata]
    simp [splitOnceChar]
  simp only [ftpParsePacket, hps, hnv]
  rw [hfind]
  constructor <;> simp [mget]

/-- Witness for C5 at `227 Entering Passive Mode (192,168,1,5,19,137)`:
passive_ip 192.168.1.5, passive_port 19*256+137. -/
theorem ftp_227_passive_parse_witness :
    mget (ftpParsePacket
        "227 Entering Passive Mode (192,168,1,5,19,137)".data
        "server_to_client") "passive_ip"
      = some (.s (toString (decVal "192".data) ++ "."
          ++ toString (decVal "168".data) ++ "."
          ++ toString (decVal "1".data) ++ "."
          ++ toString (decVal "5".data)))
    ∧ mget (ftpParsePacket
        "227 Entering Passive Mode (192,168,1,5,19,137)".data
        "server_to_client") "passive_port"
      = some (.n (decVal "19".data * 256 + decVal "137".data)) :=
  ftp_227_passive_parse "192".data "168".data "1".data "5".data
    "19".data "137".data
    "227 Entering Passive Mode (192,168,1,5,19,137)".data
    (by decide) (by decide) (by decide) (by decide) (by decide) (by decide)
    (by decide)

/-! ## `src/protocols/telnet.py` — `TelnetProtocolHandler.parse_packet`

The scanning loop (telnet.py lines 220-257) re-reads the raw chunk to
build a human-readable command trace; every index access is guarded
(`i < len(data) - 1`, `i < len(data) - 2`, `j < len(data) - 1`), so —
like the HTTP parser — nothing inside the `try` block can raise, and the
`except`/`parse_error` path of the source is unreachable.  The guards
correspond exactly to the list patterns below. -/

def telnetCmdName (cmd : Nat) : String :=
  if cmd = 253 then "DO"
  else if cmd = 254 then "DONT"
  else if cmd = 251 then "WILL"
  else if cmd = 252 then "WONT"
  else if cmd = 250 then "SB"
  else if cmd = 240 then "SE"
  else toString cmd

def telnetOptName (opt : Nat) : String :=
  if opt = 1 then "ECHO"
  else if opt = 3 then "SGA"
  else if opt = 24 then "TERM_TYPE"
  else if opt = 31 then "NAWS"
  else if opt = 32 then "TERM_SPEED"
  else if opt = 34 then "LINEMODE"
  else if opt = 36 then "ENV_VARS"
  else toString opt

/-- `bytes.hex()` of the subnegotiation payload. -/
def telnetHex (bs : List Nat) : String := bytesHex bs

/-- The command scan of `parse_packet` (telnet.py lines 220-257),
transcribed branch for branch:
* `IAC DO|DONT|WILL|WONT opt` (option byte present) → one trace entry,
  advance 3;
* `IAC SB opt ...`: with the option byte present, search for `IAC SE`
  starting one byte later; found → entry with the payload hex, continue
  after it; not found → `[incomplete]` entry and stop (`i = len(data)`);
* any other `IAC cmd` → two-byte entry;
* a non-IAC byte, or a trailing lone IAC, is skipped. -/
def telnetScan : List Nat → List String
  | [] => []
  | [_] => []
  | a :: b :: rest =>
    if a ≠ 255 then telnetScan (b :: rest)
    else if b = 253 ∨ b = 254 ∨ b = 251 ∨ b = 252 then
      match rest with
      | [] => ["IAC " ++ telnetCmdName b]
      | o :: rest' =>
          ("IAC " ++ telnetCmdName b ++ " " ++ telnetOptName o)
            :: telnetScan rest'
    else if b = 250 then
      match rest with
      | [] => ["IAC SB"]
      | o :: rest' =>
          match findIacSe rest' with
          | some k =>
              ("IAC SB " ++ telnetOptName o ++ " "
                  ++ telnetHex (rest'.take k) ++ " IAC SE")
                :: telnetScan (rest'.drop (k + 2))
          | none => ["IAC SB " ++ telnetOptName o ++ " [incomplete]"]
    else ("IAC " ++ telnetCmdName b) :: telnetScan rest
termination_by l => l.length
decreasing_by
  all_goals simp_arith [List.length_drop]

/-- The displayable-text part of `parse_packet` (telnet.py lines
268-278): keep printable ASCII plus tab/newline/carriage-return, decode,
collapse whitespace runs (`' '.join(text.split())`), bound to 100
characters. -/
def telnetTextPreview (data : List Nat) : String :=
  let displayable := data.filter (fun b => (32 ≤ b ∧ b < 127)
    ∨ b = 9 ∨ b = 10 ∨ b = 13)
  let text := decodeAscii displayable
  let words := text.data.splitOnP (fun c => isSpaceChar c)
    |>.filter (· ≠ [])
  String.intercalate " " (words.map String.mk)

/-- The `try` block of `TelnetProtocolHandler.parse_packet` (telnet.py
lines 217-284): command count, up to ten command entries, the overflow
count, and a bounded text preview. -/
def telnetInner (data : List Nat) : Metadata × Option String :=
  let commands := telnetScan data
  let m : Metadata := [("command_count", .n commands.length)]
  let m :=
    if commands ≠ [] then
      let m := m ++ [("commands", MVal.strs (commands.take 10))]
      if 10 < commands.length then
        m ++ [("additional_commands", MVal.n (commands.length - 10))]
      else m
    else m
  let text := telnetTextPreview data
  let m :=
    if text ≠ "" then
      if 100 < text.length then
        m ++ [("text_preview", MVal.s (String.mk (text.data.take 100)
          ++ "..."))]
      else m ++ [("text_preview", MVal.s (String.mk (text.data.take 100)))]
    else m
  (m, none)

/-- `TelnetProtocolHandler.parse_packet` (telnet.py lines 206-284). -/
def telnetParsePacket (data : List Nat) (direction : String) : Metadata :=
  match telnetInner data with
  | (m, none) => m
  | (m, some e) => mput m "parse_error" (.s e)

/-! ## Claim C2 — parse_packet never raises past its boundary

Each handler's `parse_packet` wraps its body in `try/except` and the
`except` clause only assigns `metadata['parse_error'] = str(e)`.  In the
embedding the body is a total function returning the metadata built so
far together with an optional exception; for HTTP and Telnet every
operation of the body is non-raising (decodes use `errors='ignore'`,
index accesses are pattern-guarded), so the error component is `none`
by construction, while the DNS body can genuinely fail in the
query-name loop. -/

/-- A 12-byte DNS header announcing one question with no question bytes
following: the query-name loop immediately reads out of range. -/
def dnsTruncatedQuery : List Nat := [0, 1, 1, 0, 0, 1, 0, 0, 0, 0, 0, 0]

/-- C2: for every input and direction, the HTTP and Telnet parse bodies
cannot fail and the wrapper returns their metadata unchanged; the DNS
wrapper returns the partial metadata with a `parse_error` field exactly
when its body fails, and a too-short datagram is reported through an
`error` field rather than an exception. -/
theorem parse_packet_never_raises :
    (∀ (data : List Char) (direction : String),
        (httpInner data direction).2 = none
        ∧ httpParsePacket data direction = (httpInner data direction).1)
    ∧ (∀ (data : List Nat) (direction : String),
        (telnetInner data).2 = none
        ∧ telnetParsePacket data direction = (telnetInner data).1)
    ∧ (∀ (data : List Nat) (direction : String) (e : String),
        (dnsInner data).2 = some e →
          mget (dnsParsePacket data direction) "parse_error" = some (.s e))
    ∧ (∀ (data : List Nat) (direction : String), data.length < 12 →
        mget (dnsParsePacket data direction) "error"
          = some (.s "Packet too short for DNS header")) := by
  refine ⟨fun d dir => ⟨rfl, rfl⟩, fun d dir => ⟨rfl, rfl⟩,
    fun d dir e he => ?_, fun d dir h => ?_⟩
  · have hd : dnsInner d = ((dnsInner d).1, some e) := by
      rw [← he]
    rw [dnsParsePacket, hd]
    exact mget_mput_self _ _ _
  · have hd : dnsInner d
        = ([("error", .s "Packet too short for DNS header")], none) := by
      unfold dnsInner
      rw [if_pos h]
    rw [dnsParsePacket, hd]
    rfl

/-- Witness for C2: the DNS body genuinely fails on a truncated query
(the `data[offset]` read of the name loop raises `IndexError`) and the
wrapper surfaces it as `parse_error`; a 3-byte datagram yields the
`error` field. -/
theorem parse_packet_never_raises_witness :
    mget (dnsParsePacket dnsTruncatedQuery "client_to_server") "parse_error"
      = some (.s "index out of range")
    ∧ mget (dnsParsePacket [1, 2, 3] "client_to_server") "error"
      = some (.s "Packet too short for DNS header") :=
  ⟨parse_packet_never_raises.2.2.1 dnsTruncatedQuery "client_to_server"
      "index out of range" (by rfl),
   parse_packet_never_raises.2.2.2 [1, 2, 3] "client_to_server" (by decide)⟩

/-! ## Claim C4 — the pause contract in the relay loops

Every relay loop (`http.py` 119-126, `dns.py` 55-62, `telnet.py` 93-100)
handles a paused packet with a log statement only — the comment in the
source reads "In a real implementation, we would wait here" — and then
forwards the bytes unconditionally.  The per-direction step of the HTTP
loop is embedded below; the DNS and Telnet steps are identical in
structure. -/

inductive Send where
  | toServer (data : List Nat)
  | toClient (data : List Nat)
  deriving Repr, DecidableEq

/-- Result of handling one readable chunk in a relay loop: whether the
loop blocked waiting for a resume, and the socket writes it performed. -/
structure RelayStepResult where
  waited : Bool
  sends : List Send
  deriving Repr, DecidableEq

/-- The client-to-server branch of `HTTPProtocolHandler._proxy_data`
(http.py lines 107-126): if inspection applies, a packet is created and
logged, and if `packet.paused` the code only logs
`"Packet {id} paused"`; the data is then forwarded with `sendall`
regardless. -/
def httpClientChunkStep (ctx : HandlerCtx)
    (parse : List Nat → String → Metadata) (freshId : String) (now : Int)
    (data : List Nat) (shouldInspect : Bool) : RelayStepResult :=
  let _packet :=
    if shouldInspect then
      some (createPacket ctx parse freshId now data "client_to_server")
    else none
  -- the `if packet.paused:` branch contains no wait primitive
  { waited := false, sends := [Send.toServer data] }

/-- C4 (code bug): even with pause-by-default set, the packet created
for a chunk is paused, yet the relay step forwards the chunk in the
same step and never waits: there is no suspension, no resume and no
pause timeout in the code. -/
theorem relay_step_forwards_despite_pause (ctx : HandlerCtx)
    (parse : List Nat → String → Metadata) (freshId : String) (now : Int)
    (data : List Nat) :
    (createPacket ctx parse freshId now data "client_to_server").paused
      = ctx.pauseByDefault
    ∧ (httpClientChunkStep ctx parse freshId now data true).sends
      = [Send.toServer data]
    ∧ (httpClientChunkStep ctx parse freshId now data true).waited
      = false := by
  exact ⟨rfl, rfl, rfl⟩

end Paps
